import Mathlib

set_option maxHeartbeats 1000000

/-!
Shallow embedding of the monsti-events module (monsti-events.go and the
unnamed source part implementing `getEvents`, `getEventContext`,
`getEventsContext`).

Modelling conventions:
* `time.Time` values are modelled as `Int` instants.
* A node's dynamic field map (`Fields`) is a `List (String × FieldValue)`;
  the Go type assertion `Fields["events.StartTime"].(*service.DateTimeField)`
  becomes the partial accessor `startTime?`; a failed assertion is a runtime
  panic, modelled as the `none` outcome of the whole computation.
* `time.Now()` is a clock oracle `Nat → Int`, consumed by an explicit read
  counter: the i-th call of `time.Now()` returns `clock i`.
* The storage collaborator (`GetChildren`) is an oracle
  `String → Except String (List Node)` (the site is fixed per query and baked
  into the oracle); the render collaborator is an oracle keyed by template
  name; both are external to this repository.
* `sort.Sort(sort.Reverse(...))` with the `StartTime`-`Before` comparator
  yields a list sorted descending by start time; the comparator's type
  assertions panic when a record lacks a `DateTime` start-time field, so the
  model asserts all records up front and sorts with a total descending
  comparator (`List.insertionSort nodeGE`).  Tie order of Go's unstable sort
  is unspecified; the model fixes one order, which is observationally
  irrelevant to the properties proved.
* Go slice expressions `xs[lo:hi]` are modelled by `goSlice`, which, like Go,
  panics (yields `none`) when the bounds are invalid.
-/

inductive FieldValue where
  | dateTime (time : Int) : FieldValue
  | text (s : String) : FieldValue
deriving DecidableEq

structure Node where
  path : String
  fields : List (String × FieldValue)
deriving DecidableEq

/-- `n.Fields[id]` lookup in the dynamic field map. -/
def getField (n : Node) (id : String) : Option FieldValue :=
  (n.fields.find? (fun p => p.1 == id)).map (fun p => p.2)

/-- The type assertion `Fields["events.StartTime"].(*service.DateTimeField).Time`:
`none` models the run-time panic on a missing or differently-typed field. -/
def startTime? (n : Node) : Option Int :=
  match getField n "events.StartTime" with
  | some (FieldValue.dateTime t) => some t
  | _ => none

/-- Start time with a default, used only where the field is known present. -/
def startD (n : Node) : Int := (startTime? n).getD 0

/-- `eventCtx`: a node together with its optional thumbnail image.
`node = none` is the zero value of the Go struct (nil `*service.Node`). -/
structure EventCtx where
  node : Option Node
  image : Option Node
deriving DecidableEq

def ctxStartD (c : EventCtx) : Int := ((c.node.bind startTime?).getD 0)

/-- The descending-by-start-time order produced by
`sort.Sort(sort.Reverse(&nodes.Sorter{events, order}))`. -/
def nodeGE (a b : Node) : Prop := startD b ≤ startD a

instance : DecidableRel nodeGE := fun a b =>
  inferInstanceAs (Decidable (startD b ≤ startD a))

instance : IsTotal Node nodeGE := ⟨fun a b => le_total (startD b) (startD a)⟩

instance : IsTrans Node nodeGE := ⟨fun _ _ _ h1 h2 => le_trans h2 h1⟩

/-- Mutable state of the `for idx := range events` loop in `getEvents`:
the prefix of `eventCtxs` written so far, `pastIdx`, `pastCount`, the number
of `time.Now()` reads so far, and the log of per-item child-fetch attempts. -/
structure EvState where
  done : List EventCtx
  pastIdx : Nat
  pastCount : Nat
  clockIdx : Nat
  fetched : List String
deriving DecidableEq

def evInit : EvState := ⟨[], 0, 0, 0, []⟩

/-- Outcome of one loop iteration: panic, error return, `break`, or
fall-through to the limit check. -/
inductive StepOut where
  | pan : StepOut
  | fail (e : String) (st : EvState) : StepOut
  | brk (st : EvState) : StepOut
  | cont (st : EvState) : StepOut

/-- The `else` branch of the loop body: `break` on `upcomingOnly`, otherwise
count the past record, fetch its children and attach the first as thumbnail. -/
def evPast (gc : String → Except String (List Node)) (uo : Bool)
    (ev : Node) (st : EvState) : StepOut :=
  if uo then StepOut.brk { st with done := st.done ++ [⟨some ev, none⟩] }
  else
    let st2 : EvState :=
      { st with pastCount := st.pastCount + 1, fetched := st.fetched ++ [ev.path] }
    match gc ev.path with
    | Except.error e => StepOut.fail ("Could not fetch children: " ++ e) st2
    | Except.ok images =>
        StepOut.cont { st2 with done := st2.done ++ [⟨some ev, images.head?⟩] }

/-- One iteration body: `eventCtxs[idx].Node = events[idx]`, then the
`idx == pastIdx && eventCtxs[idx].Upcoming()` test (short-circuit: the clock
is read and the start-time assertion made only when `idx == pastIdx`). -/
def evStep (gc : String → Except String (List Node)) (clock : Nat → Int)
    (uo : Bool) (ev : Node) (idx : Nat) (st : EvState) : StepOut :=
  if idx = st.pastIdx then
    match startTime? ev with
    | none => StepOut.pan
    | some t =>
      if clock st.clockIdx < t then
        StepOut.cont { st with clockIdx := st.clockIdx + 1,
                               done := st.done ++ [⟨some ev, none⟩],
                               pastIdx := st.pastIdx + 1 }
      else
        evPast gc uo ev { st with clockIdx := st.clockIdx + 1 }
  else
    evPast gc uo ev st

/-- Result of running the whole loop. -/
inductive LoopRes where
  | ok (st : EvState) : LoopRes
  | error (e : String) (st : EvState) : LoopRes
  | panic : LoopRes

def outState : LoopRes → Option EvState
  | LoopRes.ok st => some st
  | LoopRes.error _ st => some st
  | LoopRes.panic => none

/-- The `for idx := range events` loop of `getEvents`, including the trailing
`if limit != -1 && pastCount > limit { break }`. -/
def evLoop (gc : String → Except String (List Node)) (clock : Nat → Int)
    (uo : Bool) (limit : Int) : List Node → Nat → EvState → LoopRes
  | [], _, st => LoopRes.ok st
  | ev :: rest, idx, st =>
    match evStep gc clock uo ev idx st with
    | StepOut.pan => LoopRes.panic
    | StepOut.fail e st2 => LoopRes.error e st2
    | StepOut.brk st2 => LoopRes.ok st2
    | StepOut.cont st2 =>
      if limit ≠ -1 ∧ (st2.pastCount : Int) > limit then LoopRes.ok st2
      else evLoop gc clock uo limit rest (idx + 1) st2

/-- Go slice expression `xs[lo:hi]`; `none` models the bounds panic. -/
def goSlice (xs : List EventCtx) (lo hi : Int) : Option (List EventCtx) :=
  if 0 ≤ lo ∧ lo ≤ hi ∧ hi ≤ (xs.length : Int) then
    some ((xs.take hi.toNat).drop lo.toNat)
  else none

/-- The `eventCtxs` array after the loop (entries past the break point keep
the zero value) with the prefix `[0, pastIdx)` reversed in place. -/
def ctxArr (n : Nat) (st : EvState) : List EventCtx :=
  let arr := st.done ++ List.replicate (n - st.done.length) (⟨none, none⟩ : EventCtx)
  (arr.take st.pastIdx).reverse ++ arr.drop st.pastIdx

/-- `pastEnd := len(eventCtxs); if limit != -1 && pastEnd > pastIdx+limit
{ pastEnd = pastIdx + limit }; if upcomingOnly { pastEnd = pastIdx }`. -/
def pastEndOf (uo : Bool) (limit : Int) (n : Nat) (st : EvState) : Int :=
  if uo then (st.pastIdx : Int)
  else if limit ≠ -1 ∧ (n : Int) > (st.pastIdx : Int) + limit then
    (st.pastIdx : Int) + limit
  else (n : Int)

/-- `upcomingEnd := pastIdx; if pastOnly { upcomingEnd = 0 }`. -/
def upEndOf (po : Bool) (st : EvState) : Int :=
  if po then 0 else (st.pastIdx : Int)

/-- Result of `getEvents`: the two windows (`none` = Go nil slice), the
returned error, and the log of per-item thumbnail-fetch attempts. -/
structure GEOut where
  upcoming : Option (List EventCtx)
  past : Option (List EventCtx)
  err : Option String
  fetched : List String
deriving DecidableEq

/-- Post-loop part of `getEvents`: in-place reversal, window-end arithmetic
and the two slice expressions. -/
def finishEvents (po uo : Bool) (limit : Int) (n : Nat) (st : EvState) :
    Option GEOut :=
  match goSlice (ctxArr n st) 0 (upEndOf po st),
        goSlice (ctxArr n st) (st.pastIdx : Int) (pastEndOf uo limit n st) with
  | some up, some past =>
      some { upcoming := some up, past := some past, err := none,
             fetched := st.fetched }
  | _, _ => none

/-- `getEvents`: fetch candidates from `/aktionen`, sort descending by start
time (the comparator's type assertion panics on a record without a `DateTime`
start time), run the partition loop and slice out the two windows.
A `none` result is a run-time panic; `some` with `err` set is the
`nil, nil, err` return. -/
def getEvents (gc : String → Except String (List Node)) (clock : Nat → Int)
    (po uo : Bool) (limit : Int) : Option GEOut :=
  match gc "/aktionen" with
  | Except.error e =>
      some { upcoming := none, past := none,
             err := some ("Could not fetch children: " ++ e), fetched := [] }
  | Except.ok events =>
    if events.all (fun ev => (startTime? ev).isSome) then
      match evLoop gc clock uo limit (List.insertionSort nodeGE events) 0 evInit with
      | LoopRes.panic => none
      | LoopRes.error e st => some { upcoming := none, past := none,
                                     err := some e, fetched := st.fetched }
      | LoopRes.ok st => finishEvents po uo limit events.length st
    else none

def upWin (o : Option GEOut) : Option (List EventCtx) := o.bind (fun g => g.upcoming)

def pastWin (o : Option GEOut) : Option (List EventCtx) := o.bind (fun g => g.past)

def fetchLog (o : Option GEOut) : Option (List String) := o.map (fun g => g.fetched)

/-! ### Context assembler (`getEventsContext`, `getEventContext`) -/

/-- `url.Values`: a map from key to list of values. -/
def QueryV : Type := List (String × List String)

/-- `query[key]` (a missing key yields the empty list). -/
def queryLookup (q : QueryV) (k : String) : List String :=
  ((q.find? (fun p => p.1 == k)).map (fun p => p.2)).getD []

/-- `url.Values.Get`: first value of the key, or `""`. -/
def queryGet (q : QueryV) (k : String) : String := (queryLookup q k).headD ""

def digitsAcc : List Char → Nat → Option Nat
  | [], acc => some acc
  | c :: cs, acc =>
      if c.isDigit then digitsAcc cs (acc * 10 + (c.toNat - 48)) else none

/-- `strconv.Atoi`: optional sign followed by at least one digit
(integer-range overflow is ignored; the queries of interest are small). -/
def atoi? (s : String) : Option Int :=
  match s.toList with
  | [] => none
  | '+' :: cs =>
      match cs with
      | [] => none
      | _ => (digitsAcc cs 0).map (fun n => (n : Int))
  | '-' :: cs =>
      match cs with
      | [] => none
      | _ => (digitsAcc cs 0).map (fun n => -(n : Int))
  | cs => (digitsAcc cs 0).map (fun n => (n : Int))

/-- The `limit` derivation in `getEventsContext`: default `-1` on parse
failure, successfully parsed values below `1` clamped to `1`. -/
def parseLimit (s : String) : Int :=
  match atoi? s with
  | none => -1
  | some v => if v < 1 then 1 else v

/-- The fields of a resolved request used by the handlers. -/
structure Request where
  nodePath : String
  query : QueryV

structure CacheDep where
  node : String
  descend : Nat
deriving DecidableEq

/-- `service.CacheMods`: dependency scope plus expiry (`none` models the
zero `time.Time`, i.e. no expiry). -/
structure CacheMods where
  deps : List CacheDep
  expire : Option Int
deriving DecidableEq

/-- Return value of a context handler: rendered fragments, cache mods,
error. `none` fragments/mods model the Go `nil` returns. -/
structure CtxOut where
  frags : Option (List (String × String))
  mods : Option CacheMods
  err : Option String
deriving DecidableEq

/-- The external collaborators consumed by the handlers: request resolution,
child enumeration (site fixed per query), embed-URI query parsing
(`url.Parse` followed by `.Query()`), template rendering (keyed by template
name; the rendered bytes are opaque to this module), and the clock. -/
structure Collab where
  getRequest : Except String Request
  getChildren : String → Except String (List Node)
  parseURI : String → Except Unit QueryV
  render : String → Except String String
  clock : Nat → Int

/-- Query-source selection in `getEventsContext`: the request query, or the
embed URI's query string when an embed node is supplied. -/
def effQuery (c : Collab) (req : Request) (embed : Option String) :
    Except String QueryV :=
  match embed with
  | none => Except.ok req.query
  | some uri =>
    match c.parseURI uri with
    | Except.error _ => Except.error "Could not parse embed URI"
    | Except.ok q => Except.ok q

/-- `pastOnly := len(query["past"]) > 0` (resp. `upcoming`). -/
def flagOf (q : QueryV) (k : String) : Bool :=
  decide (0 < (queryLookup q k).length)

/-- Expiry of the list view: start time of the first upcoming item, if any.
(The partial accessor mirrors the chained type assertions of the source.) -/
def expireOf (up : List EventCtx) : Option Int :=
  up.head?.bind (fun c0 => c0.node.bind startTime?)

/-- `getEventsContext` (list view).  `none` models a run-time panic
(propagated from `getEvents` or from the expiry type assertion). -/
def getEventsContext (c : Collab) (embed : Option String) : Option CtxOut :=
  match c.getRequest with
  | Except.error e =>
      some ⟨none, none, some ("Could not get request: " ++ e)⟩
  | Except.ok req =>
    match effQuery c req embed with
    | Except.error e => some ⟨none, none, some e⟩
    | Except.ok query =>
      match getEvents c.getChildren c.clock (flagOf query "past")
          (flagOf query "upcoming") (parseLimit (queryGet query "limit")) with
      | none => none
      | some g =>
        match g.err with
        | some e =>
            some ⟨none, none, some ("Could not retrieve events: " ++ e)⟩
        | none =>
          match c.render "events/event-list" with
          | Except.error e =>
              some ⟨none, none, some ("Could not render template: " ++ e)⟩
          | Except.ok rendered =>
            match g.upcoming with
            | none => none
            | some up =>
              match up with
              | [] =>
                  some ⟨some [("EventList", rendered)],
                        some ⟨[⟨req.nodePath, 2⟩], none⟩, none⟩
              | c0 :: _ =>
                match c0.node.bind startTime? with
                | none => none
                | some t =>
                    some ⟨some [("EventList", rendered)],
                          some ⟨[⟨req.nodePath, 2⟩], some t⟩, none⟩

/-- `getEventContext` (single-item view). -/
def getEventContext (c : Collab) : CtxOut :=
  match c.getRequest with
  | Except.error e => ⟨none, none, some ("Could not get request: " ++ e)⟩
  | Except.ok req =>
    match c.getChildren req.nodePath with
    | Except.error e => ⟨none, none, some ("Could not fetch images: " ++ e)⟩
    | Except.ok _ =>
      match c.render "events/event-images" with
      | Except.error e =>
          ⟨none, none, some ("Could not render template: " ++ e)⟩
      | Except.ok rendered =>
          ⟨some [("EventImages", rendered)],
           some ⟨[⟨req.nodePath, 1⟩], none⟩, none⟩

/-! ### Concrete scenario inputs (spec §8 scenarios, relative times in days,
`T = 0`) -/

/-- An event record with the given path and start time. -/
def evNode (p : String) (t : Int) : Node :=
  ⟨p, [("events.StartTime", FieldValue.dateTime t)]⟩

def nA : Node := evNode "a" (-3)
def nB : Node := evNode "b" (-1)
def nC : Node := evNode "c" 2
def nD : Node := evNode "d" 5

/-- Storage oracle for the scenario collection: four events under
`/aktionen`, no children (images) under any event. -/
def gcScen : String → Except String (List Node) :=
  fun path => if path = "/aktionen" then Except.ok [nA, nB, nC, nD]
              else Except.ok []

/-- Constant clock at `T = 0`. -/
def clk0 : Nat → Int := fun _ => 0

def ctxA : EventCtx := ⟨some nA, none⟩
def ctxB : EventCtx := ⟨some nB, none⟩
def ctxC : EventCtx := ⟨some nC, none⟩
def ctxD : EventCtx := ⟨some nD, none⟩

/-- Two records tied at start time `1` and a clock that crosses the tie
between the two classification reads. -/
def nTa : Node := evNode "ta" 1
def nTb : Node := evNode "tb" 1

def gcTie : String → Except String (List Node) :=
  fun path => if path = "/aktionen" then Except.ok [nTa, nTb]
              else Except.ok []

def clkMove : Nat → Int := fun i => if i = 0 then 0 else 2

/-- A record lacking the `events.StartTime` field. -/
def nBad : Node := ⟨"bad", [("core.Title", FieldValue.text "x")]⟩

def gcBad : String → Except String (List Node) :=
  fun path => if path = "/aktionen" then Except.ok [nD, nBad]
              else Except.ok []

/-- A concrete collaborator bundle for exercising the context handlers. -/
def reqW : Request := ⟨"/veranstaltungen", []⟩

def collabW : Collab :=
  { getRequest := Except.ok reqW
    getChildren := gcScen
    parseURI := fun _ => Except.error ()
    render := fun _ => Except.ok "rendered"
    clock := clk0 }

/-! ### Case analyses of one loop iteration -/

lemma evPast_cases (gc : String → Except String (List Node)) (uo : Bool)
    (ev : Node) (st : EvState) :
    (uo = true ∧ evPast gc uo ev st =
        StepOut.brk { st with done := st.done ++ [⟨some ev, none⟩] }) ∨
    (uo = false ∧ ∃ e, gc ev.path = Except.error e ∧
        evPast gc uo ev st = StepOut.fail ("Could not fetch children: " ++ e)
          { st with pastCount := st.pastCount + 1,
                    fetched := st.fetched ++ [ev.path] }) ∨
    (uo = false ∧ ∃ imgs, gc ev.path = Except.ok imgs ∧
        evPast gc uo ev st = StepOut.cont
          { st with pastCount := st.pastCount + 1,
                    fetched := st.fetched ++ [ev.path],
                    done := st.done ++ [⟨some ev, imgs.head?⟩] }) := by
  cases huo : uo with
  | true => exact Or.inl ⟨rfl, by simp [evPast]⟩
  | false =>
    cases hgc : gc ev.path with
    | error e =>
      exact Or.inr (Or.inl ⟨rfl, e, rfl, by simp [evPast, hgc]⟩)
    | ok imgs =>
      exact Or.inr (Or.inr ⟨rfl, imgs, rfl, by simp [evPast, hgc]⟩)

lemma evStep_cases (gc : String → Except String (List Node)) (clock : Nat → Int)
    (uo : Bool) (ev : Node) (idx : Nat) (st : EvState) :
    (evStep gc clock uo ev idx st = StepOut.pan ∧ idx = st.pastIdx ∧
        startTime? ev = none) ∨
    (∃ t, startTime? ev = some t ∧ idx = st.pastIdx ∧ clock st.clockIdx < t ∧
        evStep gc clock uo ev idx st = StepOut.cont
          { st with clockIdx := st.clockIdx + 1,
                    done := st.done ++ [⟨some ev, none⟩],
                    pastIdx := st.pastIdx + 1 }) ∨
    (∃ st1 : EvState,
        (idx = st.pastIdx → ∃ t, startTime? ev = some t ∧
            ¬ clock st.clockIdx < t) ∧
        st1.done = st.done ∧ st1.pastIdx = st.pastIdx ∧
        st1.pastCount = st.pastCount ∧ st1.fetched = st.fetched ∧
        evStep gc clock uo ev idx st = evPast gc uo ev st1) := by
  by_cases hidx : idx = st.pastIdx
  · cases hts : startTime? ev with
    | none => exact Or.inl ⟨by simp [evStep, hidx, hts], hidx, rfl⟩
    | some t =>
      by_cases hlt : clock st.clockIdx < t
      · exact Or.inr (Or.inl ⟨t, rfl, hidx, hlt, by simp [evStep, hidx, hts, hlt]⟩)
      · refine Or.inr (Or.inr ⟨{ st with clockIdx := st.clockIdx + 1 },
          fun _ => ⟨t, rfl, hlt⟩, rfl, rfl, rfl, rfl, ?_⟩)
        simp [evStep, hidx, hts, hlt]
  · refine Or.inr (Or.inr ⟨st, fun h => absurd h hidx, rfl, rfl, rfl, rfl, ?_⟩)
    simp [evStep, hidx]

/-! ### Invariants of the partition loop -/


lemma evLoop_main (gc : String → Except String (List Node)) (clock : Nat → Int)
    (uo : Bool) (limit : Int) :
    ∀ (l : List Node) (idx : Nat) (st : EvState) (r : LoopRes) (st2 : EvState),
      evLoop gc clock uo limit l idx st = r →
      outState r = some st2 →
      (uo = false → r = LoopRes.ok st2 →
        st2.done.length + st.pastIdx + st.pastCount
          = st.done.length + st2.pastIdx + st2.pastCount) ∧
      (st2.fetched.length + st.pastCount = st.fetched.length + st2.pastCount) ∧
      (uo = true → st2.fetched = st.fetched) ∧
      (st.pastIdx ≤ st.done.length → st2.pastIdx ≤ st2.done.length) ∧
      (∃ k, k ≤ l.length ∧
        st2.done.map (fun c => c.node)
          = st.done.map (fun c => c.node) ++ (l.take k).map some) ∧
      st2.done.length ≤ st.done.length + l.length ∧
      (limit ≠ -1 → (st.pastCount : Int) ≤ limit →
        (st2.pastCount : Int) ≤ limit + 1) ∧
      (r = LoopRes.ok st2 →
        st2.done.length = st.done.length + l.length ∨ uo = true ∨
        (limit ≠ -1 ∧ (st2.pastCount : Int) > limit)) ∧
      (∀ e st3, r = LoopRes.error e st3 →
        ∃ msg, e = "Could not fetch children: " ++ msg) := by
  intro l
  induction l with
  | nil =>
    intro idx st r st2 h hout
    simp only [evLoop] at h
    subst h
    simp only [outState, Option.some.injEq] at hout
    subst hout
    refine ⟨fun _ _ => by omega, by omega, fun _ => rfl, fun h => h,
      ⟨0, by simp, by simp⟩, by simp, fun _ h => by omega,
      fun _ => Or.inl (by simp), fun e st3 h => by cases h⟩
  | cons ev rest ih =>
    intro idx st r st2 h hout
    simp only [evLoop] at h
    split at h
    · -- evStep = pan
      subst h
      simp [outState] at hout
    · -- evStep = fail
      rename_i e1 stf heq
      subst h
      simp only [outState, Option.some.injEq] at hout
      subst hout
      rcases evStep_cases gc clock uo ev idx st with
        ⟨hpan, -, -⟩ | ⟨t, -, -, -, hstep⟩ |
        ⟨st1, hchk, hd1, hp1, hc1, hf1, hstep⟩
      · rw [heq] at hpan
        cases hpan
      · rw [heq] at hstep
        cases hstep
      · rw [heq] at hstep
        rcases evPast_cases gc uo ev st1 with
          ⟨huo, hpe⟩ | ⟨huo, e0, hgc, hpe⟩ | ⟨huo, imgs, hgc, hpe⟩
        · rw [hpe] at hstep
          cases hstep
        · rw [hpe] at hstep
          injection hstep with he hst
          subst he
          subst hst
          refine ⟨?_, ?_, ?_, ?_, ?_, ?_, ?_, ?_, ?_⟩
          · intro _ h0
            cases h0
          · simp [hc1, hf1] <;> omega
          · intro h0
            rw [huo] at h0
            cases h0
          · intro hle
            simp [hd1, hp1] <;> omega
          · exact ⟨0, by simp, by simp [hd1]⟩
          · simp [hd1] <;> omega
          · intro _ _
            simp [hc1] <;> omega
          · intro h0
            cases h0
          · intro e st3 h0
            injection h0 with he2 _
            exact ⟨e0, he2.symm⟩
        · rw [hpe] at hstep
          cases hstep
    · -- evStep = brk
      rename_i stb heq
      subst h
      simp only [outState, Option.some.injEq] at hout
      subst hout
      rcases evStep_cases gc clock uo ev idx st with
        ⟨hpan, -, -⟩ | ⟨t, -, -, -, hstep⟩ |
        ⟨st1, hchk, hd1, hp1, hc1, hf1, hstep⟩
      · rw [heq] at hpan
        cases hpan
      · rw [heq] at hstep
        cases hstep
      · rw [heq] at hstep
        rcases evPast_cases gc uo ev st1 with
          ⟨huo, hpe⟩ | ⟨huo, e0, hgc, hpe⟩ | ⟨huo, imgs, hgc, hpe⟩
        · rw [hpe] at hstep
          injection hstep with hst
          subst hst
          refine ⟨?_, ?_, ?_, ?_, ?_, ?_, ?_, ?_, ?_⟩
          · intro huo2 _
            rw [huo] at huo2
            cases huo2
          · simp [hc1, hf1] <;> omega
          · intro _
            simp [hf1]
          · intro hle
            simp [hd1, hp1] <;> omega
          · exact ⟨1, by simp, by simp [hd1]⟩
          · simp [hd1] <;> omega
          · intro _ _
            simp [hc1] <;> omega
          · intro _
            exact Or.inr (Or.inl huo)
          · intro e st3 h0
            cases h0
        · rw [hpe] at hstep
          cases hstep
        · rw [hpe] at hstep
          cases hstep
    · -- evStep = cont
      rename_i stc heq
      rcases evStep_cases gc clock uo ev idx st with
        ⟨hpan, -, -⟩ | ⟨t, hts, hidx, hlt, hstep⟩ |
        ⟨st1, hchk, hd1, hp1, hc1, hf1, hstep⟩
      · rw [heq] at hpan
        cases hpan
      · -- upcoming advance
        rw [heq] at hstep
        injection hstep with hst
        subst hst
        split at h
        · -- immediate limit break
          rename_i hbr
          subst h
          simp only [outState, Option.some.injEq] at hout
          subst hout
          refine ⟨?_, ?_, ?_, ?_, ?_, ?_, ?_, ?_, ?_⟩
          · intro _ _
            simp <;> omega
          · simp
          · intro _
            rfl
          · intro hle
            simp <;> omega
          · exact ⟨1, by simp, by simp [List.take_succ_cons]⟩
          · simp <;> omega
          · intro _ _
            simp at hbr ⊢ <;> omega
          · intro _
            exact Or.inr (Or.inr hbr)
          · intro e st3 h0
            cases h0
        · -- recurse
          rename_i hnbr
          obtain ⟨ha1, ha4, ha5, ha6, ⟨k, hk, hnodes⟩, ha8, hl4, hl6, hl8⟩ :=
            ih (idx + 1) _ r st2 h hout
          refine ⟨?_, ?_, ?_, ?_, ?_, ?_, ?_, ?_, hl8⟩
          · intro huo2 hr
            have h2 := ha1 huo2 hr
            simp at h2
            omega
          · simp at ha4
            omega
          · intro huo2
            simpa using ha5 huo2
          · intro hle
            apply ha6
            simp
            omega
          · refine ⟨k + 1, by simpa using Nat.succ_le_succ hk, ?_⟩
            rw [hnodes]
            simp [List.take_succ_cons]
          · simp at ha8
            simp
            omega
          · intro hl hc
            apply hl4 hl
            simpa using hc
          · intro hr
            rcases hl6 hr with h1 | h2 | h3
            · left
              simp at h1
              simp
              omega
            · exact Or.inr (Or.inl h2)
            · exact Or.inr (Or.inr h3)
      · -- past-record processing
        rw [heq] at hstep
        rcases evPast_cases gc uo ev st1 with
          ⟨huo, hpe⟩ | ⟨huo, e0, hgc, hpe⟩ | ⟨huo, imgs, hgc, hpe⟩
        · rw [hpe] at hstep
          cases hstep
        · rw [hpe] at hstep
          cases hstep
        · rw [hpe] at hstep
          injection hstep with hst
          subst hst
          split at h
          · -- immediate limit break
            rename_i hbr
            subst h
            simp only [outState, Option.some.injEq] at hout
            subst hout
            refine ⟨?_, ?_, ?_, ?_, ?_, ?_, ?_, ?_, ?_⟩
            · intro _ _
              simp [hd1, hp1, hc1] <;> omega
            · simp [hc1, hf1] <;> omega
            · intro h0
              rw [huo] at h0
              cases h0
            · intro hle
              simp [hd1, hp1] <;> omega
            · exact ⟨1, by simp, by simp [hd1]⟩
            · simp [hd1] <;> omega
            · intro _ _
              simp [hc1] at hbr ⊢ <;> omega
            · intro _
              refine Or.inr (Or.inr ?_)
              simpa using hbr
            · intro e st3 h0
              cases h0
          · -- recurse
            rename_i hnbr
            obtain ⟨ha1, ha4, ha5, ha6, ⟨k, hk, hnodes⟩, ha8, hl4, hl6, hl8⟩ :=
              ih (idx + 1) _ r st2 h hout
            refine ⟨?_, ?_, ?_, ?_, ?_, ?_, ?_, ?_, hl8⟩
            · intro huo2 hr
              have h2 := ha1 huo2 hr
              simp [hd1, hp1, hc1] at h2
              omega
            · simp [hc1, hf1] at ha4
              omega
            · intro h0
              rw [huo] at h0
              cases h0
            · intro hle
              apply ha6
              simp [hd1, hp1]
              omega
            · refine ⟨k + 1, by simpa using Nat.succ_le_succ hk, ?_⟩
              rw [hnodes]
              simp [hd1, List.take_succ_cons]
            · simp [hd1] at ha8
              simp
              omega
            · intro hl hc
              have hc3 : ¬ ((st1.pastCount + 1 : Nat) : Int) > limit := by
                intro hgt
                exact hnbr ⟨hl, by simpa using hgt⟩
              apply hl4 hl
              simp [hc1] at hc3 ⊢
              omega
            · intro hr
              rcases hl6 hr with h1 | h2 | h3
              · left
                simp [hd1] at h1
                simp
                omega
              · exact Or.inr (Or.inl h2)
              · exact Or.inr (Or.inr h3)

lemma evLoop_no_panic (gc : String → Except String (List Node))
    (clock : Nat → Int) (uo : Bool) (limit : Int) :
    ∀ (l : List Node) (idx : Nat) (st : EvState),
      (∀ ev ∈ l, (startTime? ev).isSome = true) →
      evLoop gc clock uo limit l idx st ≠ LoopRes.panic := by
  intro l
  induction l with
  | nil =>
    intro idx st _ h
    simp [evLoop] at h
  | cons ev rest ih =>
    intro idx st hall h
    simp only [evLoop] at h
    split at h
    · rename_i heq
      rcases evStep_cases gc clock uo ev idx st with
        ⟨-, -, hts⟩ | ⟨t, -, -, -, hstep⟩ |
        ⟨st1, -, -, -, -, -, hstep⟩
      · have hsome := hall ev (by simp)
        rw [hts] at hsome
        simp at hsome
      · rw [heq] at hstep
        cases hstep
      · rw [heq] at hstep
        rcases evPast_cases gc uo ev st1 with
          ⟨huo, hpe⟩ | ⟨huo, e0, hgc, hpe⟩ | ⟨huo, imgs, hgc, hpe⟩ <;>
          rw [hpe] at hstep <;> cases hstep
    · cases h
    · cases h
    · split at h
      · cases h
      · exact ih (idx + 1) _ (fun x hx => hall x (by simp [hx])) h

lemma evLoop_classify (gc : String → Except String (List Node)) (t : Int)
    (uo : Bool) (limit : Int) :
    ∀ (l : List Node) (idx : Nat) (st : EvState) (r : LoopRes) (st2 : EvState),
      evLoop gc (fun _ => t) uo limit l idx st = r →
      outState r = some st2 →
      List.Sorted nodeGE l →
      idx = st.done.length →
      st.pastIdx ≤ st.done.length →
      (∀ c ∈ st.done.take st.pastIdx, t < ctxStartD c) →
      (∀ c ∈ st.done.drop st.pastIdx, ctxStartD c ≤ t) →
      (st.pastIdx < st.done.length → ∀ x ∈ l, startD x ≤ t) →
      (∀ c ∈ st2.done.take st2.pastIdx, t < ctxStartD c) ∧
      (∀ c ∈ st2.done.drop st2.pastIdx, ctxStartD c ≤ t) := by
  intro l
  induction l with
  | nil =>
    intro idx st r st2 h hout _ _ _ h1 h2 _
    simp only [evLoop] at h
    subst h
    simp only [outState, Option.some.injEq] at hout
    subst hout
    exact ⟨h1, h2⟩
  | cons ev rest ih =>
    intro idx st r st2 h hout hsort hidx hple h1 h2 hlast
    have hsrest : List.Sorted nodeGE rest := (List.sorted_cons.mp hsort).2
    have hshead : ∀ x ∈ rest, nodeGE ev x := (List.sorted_cons.mp hsort).1
    simp only [evLoop] at h
    split at h
    · -- pan
      subst h
      simp [outState] at hout
    · -- fail: the done prefix is unchanged
      rename_i e1 stf heq
      subst h
      simp only [outState, Option.some.injEq] at hout
      subst hout
      rcases evStep_cases gc (fun _ => t) uo ev idx st with
        ⟨hpan, -, -⟩ | ⟨t0, -, -, -, hstep⟩ |
        ⟨st1, hchk, hd1, hp1, hc1, hf1, hstep⟩
      · rw [heq] at hpan
        cases hpan
      · rw [heq] at hstep
        cases hstep
      · rw [heq] at hstep
        rcases evPast_cases gc uo ev st1 with
          ⟨huo, hpe⟩ | ⟨huo, e0, hgc, hpe⟩ | ⟨huo, imgs, hgc, hpe⟩
        · rw [hpe] at hstep
          cases hstep
        · rw [hpe] at hstep
          injection hstep with he hst
          subst hst
          constructor
          · intro c hc
            apply h1
            simpa [hd1, hp1] using hc
          · intro c hc
            apply h2
            simpa [hd1, hp1] using hc
        · rw [hpe] at hstep
          cases hstep
    · -- brk: one past entry appended, loop ends
      rename_i stb heq
      subst h
      simp only [outState, Option.some.injEq] at hout
      subst hout
      rcases evStep_cases gc (fun _ => t) uo ev idx st with
        ⟨hpan, -, -⟩ | ⟨t0, -, -, -, hstep⟩ |
        ⟨st1, hchk, hd1, hp1, hc1, hf1, hstep⟩
      · rw [heq] at hpan
        cases hpan
      · rw [heq] at hstep
        cases hstep
      · rw [heq] at hstep
        rcases evPast_cases gc uo ev st1 with
          ⟨huo, hpe⟩ | ⟨huo, e0, hgc, hpe⟩ | ⟨huo, imgs, hgc, hpe⟩
        · rw [hpe] at hstep
          injection hstep with hst
          subst hst
          have hevpast : startD ev ≤ t := by
            by_cases hix : idx = st.pastIdx
            · obtain ⟨t0, hts, hnlt⟩ := hchk hix
              simp only [not_lt] at hnlt
              simp [startD, hts]
              exact hnlt
            · have hplt : st.pastIdx < st.done.length := by
                omega
              exact hlast hplt ev (by simp)
          constructor
          · intro c hc
            apply h1
            simp only [hd1, hp1] at hc
            rwa [List.take_append_of_le_length hple] at hc
          · intro c hc
            simp only [hd1, hp1] at hc
            rw [List.drop_append_of_le_length hple] at hc
            rcases List.mem_append.mp hc with hc2 | hc2
            · exact h2 c hc2
            · simp at hc2
              subst hc2
              simpa [ctxStartD, startD] using hevpast
        · rw [hpe] at hstep
          cases hstep
        · rw [hpe] at hstep
          cases hstep
    · -- cont
      rename_i stc heq
      rcases evStep_cases gc (fun _ => t) uo ev idx st with
        ⟨hpan, -, -⟩ | ⟨t0, hts, hix, hlt, hstep⟩ |
        ⟨st1, hchk, hd1, hp1, hc1, hf1, hstep⟩
      · rw [heq] at hpan
        cases hpan
      · -- upcoming advance
        rw [heq] at hstep
        injection hstep with hst
        subst hst
        have hpeq : st.pastIdx = st.done.length := by omega
        have htake1 : ∀ c ∈ (st.done ++ [(⟨some ev, none⟩ : EventCtx)]).take
            (st.pastIdx + 1), t < ctxStartD c := by
          intro c hc
          rw [List.take_of_length_le (by simp; omega)] at hc
          rcases List.mem_append.mp hc with hc2 | hc2
          · exact h1 c (by rwa [hpeq, List.take_length])
          · simp at hc2
            subst hc2
            simpa [ctxStartD, startD, hts] using hlt
        have hdrop1 : ∀ c ∈ (st.done ++ [(⟨some ev, none⟩ : EventCtx)]).drop
            (st.pastIdx + 1), ctxStartD c ≤ t := by
          intro c hc
          rw [List.drop_of_length_le (by simp; omega)] at hc
          cases hc
        split at h
        · -- immediate limit break
          subst h
          simp only [outState, Option.some.injEq] at hout
          subst hout
          exact ⟨htake1, hdrop1⟩
        · -- recurse
          refine ih (idx + 1) _ r st2 h hout hsrest (by simp [hidx]) ?_ ?_ ?_ ?_
          · simp
            omega
          · simpa using htake1
          · simpa using hdrop1
          · intro hlt2
            simp at hlt2
            omega
      · -- past-record processing
        rw [heq] at hstep
        rcases evPast_cases gc uo ev st1 with
          ⟨huo, hpe⟩ | ⟨huo, e0, hgc, hpe⟩ | ⟨huo, imgs, hgc, hpe⟩
        · rw [hpe] at hstep
          cases hstep
        · rw [hpe] at hstep
          cases hstep
        · rw [hpe] at hstep
          injection hstep with hst
          subst hst
          have hevpast : startD ev ≤ t := by
            by_cases hix : idx = st.pastIdx
            · obtain ⟨t0, hts, hnlt⟩ := hchk hix
              simp only [not_lt] at hnlt
              simp [startD, hts]
              exact hnlt
            · have hplt : st.pastIdx < st.done.length := by
                omega
              exact hlast hplt ev (by simp)
          have htake1 : ∀ c ∈ (st1.done ++ [(⟨some ev, imgs.head?⟩ : EventCtx)]).take
              st1.pastIdx, t < ctxStartD c := by
            intro c hc
            rw [List.take_append_of_le_length (by rw [hd1, hp1]; exact hple)] at hc
            apply h1
            simpa [hd1, hp1] using hc
          have hdrop1 : ∀ c ∈ (st1.done ++ [(⟨some ev, imgs.head?⟩ : EventCtx)]).drop
              st1.pastIdx, ctxStartD c ≤ t := by
            intro c hc
            rw [List.drop_append_of_le_length (by rw [hd1, hp1]; exact hple)] at hc
            rcases List.mem_append.mp hc with hc2 | hc2
            · exact h2 c (by simpa [hd1, hp1] using hc2)
            · simp at hc2
              subst hc2
              simpa [ctxStartD, startD] using hevpast
          split at h
          · -- immediate limit break
            subst h
            simp only [outState, Option.some.injEq] at hout
            subst hout
            exact ⟨htake1, hdrop1⟩
          · -- recurse
            refine ih (idx + 1) _ r st2 h hout hsrest (by simp [hidx, hd1]) ?_
              htake1 hdrop1 ?_
            · simp [hd1, hp1]
              omega
            · intro _ x hx
              calc startD x ≤ startD ev := hshead x hx
                _ ≤ t := hevpast

lemma goSlice_some {xs : List EventCtx} {lo hi : Int} {ys : List EventCtx}
    (h : goSlice xs lo hi = some ys) :
    0 ≤ lo ∧ lo ≤ hi ∧ hi ≤ (xs.length : Int) ∧
    ys = (xs.take hi.toNat).drop lo.toNat := by
  unfold goSlice at h
  split at h
  · rename_i hcond
    injection h with h2
    exact ⟨hcond.1, hcond.2.1, hcond.2.2, h2.symm⟩
  · cases h

/-- Structure of a successful `getEvents` run: the loop final state, the two
windows as explicit slices of its `done` list, and the window-end bounds. -/
lemma getEvents_ok_struct (gc : String → Except String (List Node))
    (clock : Nat → Int) (po uo : Bool) (limit : Int) (out : GEOut)
    (events : List Node)
    (hev : gc "/aktionen" = Except.ok events)
    (h : getEvents gc clock po uo limit = some out)
    (herr : out.err = none) :
    ∃ (st2 : EvState) (up past : List EventCtx) (pEnd : Nat),
      evLoop gc clock uo limit (List.insertionSort nodeGE events) 0 evInit
        = LoopRes.ok st2 ∧
      out = ⟨some up, some past, none, st2.fetched⟩ ∧
      st2.pastIdx ≤ st2.done.length ∧
      st2.done.length ≤ events.length ∧
      st2.done.map (fun c => c.node)
        = ((List.insertionSort nodeGE events).take st2.done.length).map some ∧
      up = (if po then [] else (st2.done.take st2.pastIdx).reverse) ∧
      st2.pastIdx ≤ pEnd ∧ pEnd ≤ st2.done.length ∧
      past = (st2.done.drop st2.pastIdx).take (pEnd - st2.pastIdx) ∧
      (uo = true → pEnd = st2.pastIdx) ∧
      (limit = -1 → uo = false → pEnd = events.length) ∧
      (limit ≠ -1 → uo = false →
        (pEnd : Int) ≤ (st2.pastIdx : Int) + limit) := by
  simp only [getEvents, hev] at h
  split at h
  case isFalse => cases h
  rename_i hall
  split at h
  case h_1 => cases h
  case h_2 e stx heq =>
    injection h with h2
    rw [← h2] at herr
    simp at herr
  case h_3 st2 heq =>
  -- invariants of the final loop state
  have hmain := evLoop_main gc clock uo limit
    (List.insertionSort nodeGE events) 0 evInit (LoopRes.ok st2) st2 heq rfl
  obtain ⟨ha1, -, -, ha6, ⟨k, hk, hnodes⟩, ha8, -, hl6, -⟩ := hmain
  have hslen : (List.insertionSort nodeGE events).length = events.length :=
    List.length_insertionSort nodeGE events
  have hpl : st2.pastIdx ≤ st2.done.length := ha6 (by simp [evInit])
  have hdl : st2.done.length ≤ events.length := by
    simpa [evInit, hslen] using ha8
  have hkd : k = st2.done.length := by
    have := congrArg List.length hnodes
    simp [evInit] at this
    omega
  subst hkd
  have hnodes2 : st2.done.map (fun c => c.node)
      = ((List.insertionSort nodeGE events).take st2.done.length).map some := by
    simpa [evInit] using hnodes
  -- decompose finishEvents
  unfold finishEvents at h
  split at h
  case h_2 => cases h
  rename_i up past hup hpast
  injection h with h2
  subst h2
  obtain ⟨-, hup1, hup2, hupv⟩ := goSlice_some hup
  obtain ⟨-, hpa1, hpa2, hpav⟩ := goSlice_some hpast
  -- array facts
  set n := events.length with hn
  set p := st2.pastIdx with hp
  set arr := st2.done ++ List.replicate (n - st2.done.length)
      (⟨none, none⟩ : EventCtx) with harr
  have harrlen : arr.length = n := by
    simp [harr]
    omega
  have harrtake : arr.take p = st2.done.take p := by
    rw [harr, List.take_append_of_le_length hpl]
  have harrdrop : arr.drop p = st2.done.drop p
      ++ List.replicate (n - st2.done.length) (⟨none, none⟩ : EventCtx) := by
    rw [harr, List.drop_append_of_le_length hpl]
  have hxlen : ((arr.take p).reverse).length = p := by
    simp [harrlen]
    omega
  have hctxlen : (ctxArr n st2).length = n := by
    simp only [ctxArr]
    simp [harrlen.symm]
    omega
  rw [hctxlen] at hup2 hpa2
  -- the upcoming window
  have hupval : up = (if po then [] else (st2.done.take p).reverse) := by
    rw [hupv]
    simp only [Int.toNat_zero, List.drop_zero]
    by_cases hpo : po = true
    · simp [upEndOf, hpo]
    · have hpo2 : po = false := by simpa using hpo
      simp only [upEndOf, hpo2, if_false, Int.toNat_natCast]
      rw [show ctxArr n st2 = (arr.take p).reverse ++ arr.drop p from rfl]
      rw [List.take_append_of_le_length (by rw [hxlen]; simp),
        List.take_of_length_le (by rw [hxlen]; simp), harrtake]
      simp
  -- past end bounds
  set pEndI := pastEndOf uo limit n st2 with hpE
  have hpEnn : 0 ≤ pEndI := le_trans (by positivity) hpa1
  have hpEtrue : uo = true → pEndI = (p : Int) := by
    intro huo
    rw [hpE, huo]
    simp [pastEndOf]
  have hpEfalse : uo = false → pEndI
      = if limit ≠ -1 ∧ (n : Int) > (p : Int) + limit then (p : Int) + limit
        else (n : Int) := by
    intro huo
    rw [hpE, huo]
    simp [pastEndOf]
  have hpEdl : pEndI.toNat ≤ st2.done.length := by
    by_cases huo : uo = true
    · have := hpEtrue huo
      omega
    · have huo2 : uo = false := by simpa using huo
      have hpEf := hpEfalse huo2
      rcases hl6 rfl with h1 | h2 | h3
      · have hdln : st2.done.length = n := by
          simpa [evInit, hslen] using h1
        have : pEndI ≤ (n : Int) := by
          rw [hpEf]
          split
          · rename_i hcnd
            omega
          · omega
        omega
      · rw [h2] at huo2
        cases huo2
      · obtain ⟨hlim, hcnt⟩ := h3
        have hcount : st2.done.length = p + st2.pastCount := by
          have := ha1 huo2 rfl
          simp [evInit] at this
          omega
        have hbig : (st2.done.length : Int) ≥ (p : Int) + limit + 1 := by
          omega
        have : pEndI = (p : Int) + limit := by
          rw [hpEf]
          rw [if_pos ⟨hlim, by omega⟩]
        omega
  -- the past window
  have hpastval : past = (st2.done.drop p).take (pEndI.toNat - p) := by
    rw [hpav]
    rw [show ctxArr n st2 = (arr.take p).reverse ++ arr.drop p from rfl]
    rw [List.take_append_eq_append_take, hxlen,
      List.take_of_length_le (by rw [hxlen]; omega)]
    rw [Int.toNat_natCast]
    rw [show ((arr.take p).reverse ++ (arr.drop p).take (pEndI.toNat - p)).drop p
        = ((arr.drop p).take (pEndI.toNat - p)) from by
      rw [List.drop_append_eq_append_drop, hxlen]
      simp]
    rw [harrdrop, List.take_append_of_le_length (by simp; omega)]
  refine ⟨st2, up, past, pEndI.toNat, heq, rfl, hpl, hdl, hnodes2, hupval,
    by omega, hpEdl, hpastval, ?_, ?_, ?_⟩
  · intro huo
    have := hpEtrue huo
    omega
  · intro hlim huo
    have := hpEfalse huo
    rw [if_neg (by simp [hlim])] at this
    omega
  · intro hlim huo
    have hpEf := hpEfalse huo
    by_cases hcnd : (n : Int) > (p : Int) + limit
    · rw [if_pos ⟨hlim, hcnd⟩] at hpEf
      omega
    · rw [if_neg (by rw [not_and_or]; right; exact hcnd)] at hpEf
      omega

/-- Facts holding for every non-panicking `getEvents` outcome: the fetch log
is empty under `upcomingOnly`, it has at most `limit + 1` entries when a
non-negative limit is in effect, and every returned error is a wrapped
child-fetch error with both windows nil. -/
lemma getEvents_some_facts (gc : String → Except String (List Node))
    (clock : Nat → Int) (po uo : Bool) (limit : Int) (out : GEOut)
    (h : getEvents gc clock po uo limit = some out) :
    (uo = true → out.fetched = []) ∧
    (limit ≠ -1 → 0 ≤ limit → (out.fetched.length : Int) ≤ limit + 1) ∧
    (∀ e, out.err = some e → out.upcoming = none ∧ out.past = none ∧
      ∃ msg, e = "Could not fetch children: " ++ msg) := by
  unfold getEvents at h
  split at h
  case h_1 e hev =>
    injection h with h2
    subst h2
    refine ⟨fun _ => rfl, fun _ h0 => by simp; omega, fun e2 he2 => ⟨rfl, rfl, e, ?_⟩⟩
    simp only [Option.some.injEq] at he2
    exact he2.symm
  case h_2 events hev =>
    split at h
    case isFalse => cases h
    rename_i hall
    split at h
    case h_1 => cases h
    case h_2 e stx heq =>
      injection h with h2
      subst h2
      have hmain := evLoop_main gc clock uo limit
        (List.insertionSort nodeGE events) 0 evInit (LoopRes.error e stx) stx heq rfl
      obtain ⟨-, ha4, ha5, -, -, -, hl4, -, hl8⟩ := hmain
      refine ⟨fun huo => by simpa [evInit] using ha5 huo, ?_, ?_⟩
      · intro hlim hnn
        have hcount : stx.fetched.length = stx.pastCount := by
          simpa [evInit] using ha4
        have := hl4 hlim (by simp [evInit]; omega)
        simp only [GEOut.fetched]
        omega
      · intro e2 he2
        simp only [GEOut.err, Option.some.injEq] at he2
        subst he2
        exact ⟨rfl, rfl, hl8 e stx rfl⟩
    case h_3 stx heq =>
      have hmain := evLoop_main gc clock uo limit
        (List.insertionSort nodeGE events) 0 evInit (LoopRes.ok stx) stx heq rfl
      obtain ⟨-, ha4, ha5, -, -, -, hl4, -, -⟩ := hmain
      unfold finishEvents at h
      split at h
      case h_2 => cases h
      rename_i up past hup hpast
      injection h with h2
      subst h2
      refine ⟨fun huo => by simpa [evInit] using ha5 huo, ?_, ?_⟩
      · intro hlim hnn
        have hcount : stx.fetched.length = stx.pastCount := by
          simpa [evInit] using ha4
        have := hl4 hlim (by simp [evInit]; omega)
        simp only [GEOut.fetched]
        omega
      · intro e2 he2
        simp at he2

/-- A `getEvents` outcome that carries an upcoming window carries no error. -/
lemma getEvents_err_none_of_upcoming (gc : String → Except String (List Node))
    (clock : Nat → Int) (po uo : Bool) (limit : Int) (out : GEOut)
    (up : List EventCtx)
    (h : getEvents gc clock po uo limit = some out)
    (hu : out.upcoming = some up) : out.err = none := by
  rcases he : out.err with _ | e
  · rfl
  · obtain ⟨-, -, hf⟩ := getEvents_some_facts gc clock po uo limit out h
    obtain ⟨hun, -, -⟩ := hf e he
    rw [hun] at hu
    cases hu

/-- A `getEvents` outcome that carries a past window carries no error. -/
lemma getEvents_err_none_of_past (gc : String → Except String (List Node))
    (clock : Nat → Int) (po uo : Bool) (limit : Int) (out : GEOut)
    (past : List EventCtx)
    (h : getEvents gc clock po uo limit = some out)
    (hp : out.past = some past) : out.err = none := by
  rcases he : out.err with _ | e
  · rfl
  · obtain ⟨-, -, hf⟩ := getEvents_some_facts gc clock po uo limit out h
    obtain ⟨-, hpn, -⟩ := hf e he
    rw [hpn] at hp
    cases hp

/-- `finishEvents` succeeds whenever the state is well formed and the limit
is the unbounded sentinel or at least 1 (the values reachable from the
list-view handler). -/
lemma finishEvents_some (po uo : Bool) (limit : Int) (n : Nat) (st : EvState)
    (hpl : st.pastIdx ≤ st.done.length) (hdl : st.done.length ≤ n)
    (hlim : limit = -1 ∨ 1 ≤ limit) :
    ∃ out, finishEvents po uo limit n st = some out := by
  have hpn : st.pastIdx ≤ n := le_trans hpl hdl
  have hctxlen : (ctxArr n st).length = n := by
    simp [ctxArr]
    omega
  have hup0 : 0 ≤ upEndOf po st ∧ upEndOf po st ≤ (n : Int) := by
    unfold upEndOf
    split
    · constructor <;> omega
    · constructor <;> omega
  have hpa0 : (st.pastIdx : Int) ≤ pastEndOf uo limit n st ∧
      pastEndOf uo limit n st ≤ (n : Int) := by
    unfold pastEndOf
    split
    · constructor <;> omega
    · split
      · rename_i hcnd
        rcases hlim with h | h
        · exact absurd h hcnd.1
        · constructor <;> omega
      · constructor <;> omega
  have hs1 : goSlice (ctxArr n st) 0 (upEndOf po st)
      = some (((ctxArr n st).take (upEndOf po st).toNat).drop (0 : Int).toNat) := by
    unfold goSlice
    rw [if_pos ⟨le_refl (0 : Int), hup0.1, by rw [hctxlen]; exact hup0.2⟩]
  have hs2 : goSlice (ctxArr n st) (st.pastIdx : Int) (pastEndOf uo limit n st)
      = some (((ctxArr n st).take (pastEndOf uo limit n st).toNat).drop
          ((st.pastIdx : Int)).toNat) := by
    unfold goSlice
    rw [if_pos ⟨by positivity, hpa0.1, by rw [hctxlen]; exact hpa0.2⟩]
  exact ⟨⟨some (((ctxArr n st).take (upEndOf po st).toNat).drop ((0 : Int)).toNat),
          some (((ctxArr n st).take (pastEndOf uo limit n st).toNat).drop
            ((st.pastIdx : Int)).toNat),
          none, st.fetched⟩, by unfold finishEvents; rw [hs1, hs2]⟩

/-- C4 (amended): with `upcomingOnly` no thumbnail fetch is attempted at
all; with a non-negative limit in effect, at most `limit + 1` past records
get a fetch attempt (the record that trips the `pastCount > limit` break has
already been fetched, so the bound `limit` of the claim is off by one). -/
theorem C4_thumbnail_fetch_bounds :
    (∀ (gc : String → Except String (List Node)) (clock : Nat → Int)
        (po : Bool) (limit : Int) (out : GEOut),
      getEvents gc clock po true limit = some out → out.fetched = []) ∧
    (∀ (gc : String → Except String (List Node)) (clock : Nat → Int)
        (po uo : Bool) (limit : Int) (out : GEOut),
      limit ≠ -1 → 0 ≤ limit → getEvents gc clock po uo limit = some out →
      (out.fetched.length : Int) ≤ limit + 1) := by
  constructor
  · intro gc clock po limit out h
    exact (getEvents_some_facts gc clock po true limit out h).1 rfl
  · intro gc clock po uo limit out hl hnn h
    exact (getEvents_some_facts gc clock po uo limit out h).2.1 hl hnn

/-- C4 counterexample: in the §8 scenario with `limit = 1`, two thumbnail
fetches are attempted (paths "b" and "a"), exceeding the claimed bound of
at most `limit = 1` fetch attempts. -/
theorem C4_counterexample :
    fetchLog (getEvents gcScen clk0 false false 1) = some ["b", "a"] ∧
    ¬ ((["b", "a"] : List String).length ≤ 1) := ⟨rfl, by decide⟩

/-- C4 witness: the amended bounds evaluated on the scenario collection. -/
theorem C4_witness :
    ((⟨some [ctxC, ctxD], some [], none, []⟩ : GEOut).fetched = []) ∧
    (((⟨some [ctxC, ctxD], some [ctxB], none, ["b", "a"]⟩ : GEOut).fetched.length
        : Int) ≤ 1 + 1) :=
  ⟨C4_thumbnail_fetch_bounds.1 gcScen clk0 false (-1)
      ⟨some [ctxC, ctxD], some [], none, []⟩ (by rfl),
   C4_thumbnail_fetch_bounds.2 gcScen clk0 false false 1
      ⟨some [ctxC, ctxD], some [ctxB], none, ["b", "a"]⟩ (by decide) (by decide)
      (by rfl)⟩

/-- C5 (amended): the `limit` query parameter defaults to the unbounded
sentinel `-1` exactly on parse failure; every successfully parsed value
below 1 — including a requested `-1` — is clamped to `1` and behaves as a
limit of `1`; parsed values of at least 1 are kept. -/
theorem C5_limit_parsing (s : String) :
    (atoi? s = none → parseLimit s = -1) ∧
    (∀ v : Int, atoi? s = some v → v < 1 → parseLimit s = 1) ∧
    (∀ v : Int, atoi? s = some v → 1 ≤ v → parseLimit s = v) ∧
    (∀ (gc : String → Except String (List Node)) (clock : Nat → Int)
        (po uo : Bool) (v : Int), atoi? s = some v → v < 1 →
      getEvents gc clock po uo (parseLimit s) = getEvents gc clock po uo 1) := by
  refine ⟨?_, ?_, ?_, ?_⟩
  · intro hn
    simp [parseLimit, hn]
  · intro v hv hlt
    simp [parseLimit, hv, hlt]
  · intro v hv hle
    simp [parseLimit, hv]
    omega
  · intro gc clock po uo v hv hlt
    have : parseLimit s = 1 := by simp [parseLimit, hv, hlt]
    rw [this]

/-- C5 counterexample: a requested limit of `-1` parses successfully and is
then clamped to `1` — it does not mean unbounded; the unbounded run and the
clamped run differ on the scenario collection. -/
theorem C5_counterexample :
    parseLimit "-1" = 1 ∧ (1 : Int) ≠ -1 ∧
    pastWin (getEvents gcScen clk0 false false (parseLimit "-1")) = some [ctxB] ∧
    pastWin (getEvents gcScen clk0 false false (-1)) = some [ctxB, ctxA] :=
  ⟨rfl, by decide, rfl, rfl⟩

/-- C5 witness: the parsing equations evaluated at concrete parameter
strings. -/
theorem C5_witness :
    parseLimit "zz" = -1 ∧ parseLimit "0" = 1 ∧ parseLimit "7" = 7 ∧
    getEvents gcScen clk0 false false (parseLimit "-3")
      = getEvents gcScen clk0 false false 1 :=
  ⟨(C5_limit_parsing "zz").1 rfl,
   (C5_limit_parsing "0").2.1 0 rfl (by decide),
   (C5_limit_parsing "7").2.2.1 7 rfl (by decide),
   (C5_limit_parsing "-3").2.2.2 gcScen clk0 false false (-3) rfl (by decide)⟩

/-- C9: any children-enumeration failure aborts the query: every error
`getEvents` returns is wrapped as "Could not fetch children: ..." with both
windows nil; an initial candidate-fetch failure aborts immediately; and a
list-view context that reports an error carries no rendered fragments and no
cache mods. -/
theorem C9_enumeration_failure_aborts :
    (∀ (gc : String → Except String (List Node)) (clock : Nat → Int)
        (po uo : Bool) (limit : Int) (out : GEOut) (e : String),
      getEvents gc clock po uo limit = some out → out.err = some e →
      out.upcoming = none ∧ out.past = none ∧
      ∃ msg, e = "Could not fetch children: " ++ msg) ∧
    (∀ (gc : String → Except String (List Node)) (clock : Nat → Int)
        (po uo : Bool) (limit : Int) (e0 : String),
      gc "/aktionen" = Except.error e0 →
      getEvents gc clock po uo limit
        = some ⟨none, none, some ("Could not fetch children: " ++ e0), []⟩) ∧
    (∀ (c : Collab) (embed : Option String) (out : CtxOut) (e : String),
      getEventsContext c embed = some out → out.err = some e →
      out.frags = none ∧ out.mods = none) := by
  refine ⟨?_, ?_, ?_⟩
  · intro gc clock po uo limit out e h he
    exact (getEvents_some_facts gc clock po uo limit out h).2.2 e he
  · intro gc clock po uo limit e0 hev
    unfold getEvents
    rw [hev]
  · intro c embed out e hout he
    unfold getEventsContext at hout
    split at hout
    · injection hout with h2
      subst h2
      exact ⟨rfl, rfl⟩
    · split at hout
      · injection hout with h2
        subst h2
        exact ⟨rfl, rfl⟩
      · split at hout
        · cases hout
        · split at hout
          · injection hout with h2
            subst h2
            exact ⟨rfl, rfl⟩
          · split at hout
            · injection hout with h2
              subst h2
              exact ⟨rfl, rfl⟩
            · split at hout
              · cases hout
              · split at hout
                · injection hout with h2
                  subst h2
                  simp at he
                · split at hout
                  · cases hout
                  · injection hout with h2
                    subst h2
                    simp at he

/-- C9 witness: the abort shape evaluated on a collection whose candidate
fetch fails. -/
theorem C9_witness :
    getEvents (fun _ => Except.error "boom") clk0 false false (-1)
      = some ⟨none, none, some ("Could not fetch children: " ++ "boom"), []⟩ ∧
    ((⟨none, none, some ("Could not fetch children: " ++ "boom"), []⟩ : GEOut).upcoming
        = none ∧
      (⟨none, none, some ("Could not fetch children: " ++ "boom"), []⟩ : GEOut).past
        = none ∧
      ∃ msg, "Could not fetch children: " ++ "boom"
        = "Could not fetch children: " ++ msg) :=
  ⟨C9_enumeration_failure_aborts.2.1 (fun _ => Except.error "boom") clk0
      false false (-1) "boom" rfl,
   C9_enumeration_failure_aborts.1 (fun _ => Except.error "boom") clk0
      false false (-1) ⟨none, none, some ("Could not fetch children: " ++ "boom"), []⟩
      ("Could not fetch children: " ++ "boom") (by rfl) rfl⟩

/-- C10: the partition engine presupposes a `DateTime` start time on every
record: under that precondition (and a caller-reachable limit) `getEvents`
never panics, while a collection containing a record without the field makes
the start-time type assertion fault at run time (modelled as `none`), not a
returned error. -/
theorem C10_start_time_assertion :
    (∀ (gc : String → Except String (List Node)) (clock : Nat → Int)
        (po uo : Bool) (limit : Int) (events : List Node),
      gc "/aktionen" = Except.ok events →
      (∀ ev ∈ events, (startTime? ev).isSome = true) →
      (limit = -1 ∨ 1 ≤ limit) →
      ∃ out, getEvents gc clock po uo limit = some out) ∧
    getEvents gcBad clk0 false false (-1) = none := by
  constructor
  · intro gc clock po uo limit events hev hall hlim
    have hallb : events.all (fun ev => (startTime? ev).isSome) = true := by
      rw [List.all_eq_true]
      intro ev hevm
      exact hall ev hevm
    have hsall : ∀ ev ∈ List.insertionSort nodeGE events,
        (startTime? ev).isSome = true := by
      intro ev hm
      exact hall ev ((List.perm_insertionSort nodeGE events).mem_iff.mp hm)
    have hred : getEvents gc clock po uo limit
        = match evLoop gc clock uo limit (List.insertionSort nodeGE events)
            0 evInit with
          | LoopRes.panic => none
          | LoopRes.error e st =>
              some ⟨none, none, some e, st.fetched⟩
          | LoopRes.ok st => finishEvents po uo limit events.length st := by
      unfold getEvents
      rw [hev]
      simp only [hallb, if_true]
    rw [hred]
    rcases hloop2 : evLoop gc clock uo limit
        (List.insertionSort nodeGE events) 0 evInit with st3 | ⟨e3, st4⟩ | _
    · obtain ⟨-, -, -, ha6, -, ha8, -, -, -⟩ := evLoop_main gc clock uo limit
        (List.insertionSort nodeGE events) 0 evInit (LoopRes.ok st3) st3 hloop2 rfl
      exact finishEvents_some po uo limit events.length st3
        (ha6 (by simp [evInit]))
        (by simpa [evInit, List.length_insertionSort] using ha8) hlim
    · exact ⟨⟨none, none, some e3, st4.fetched⟩, rfl⟩
    · exact absurd hloop2 (evLoop_no_panic gc clock uo limit _ 0 evInit hsall)
  · rfl

/-- C10 witness: the no-panic half evaluated on the scenario collection. -/
theorem C10_witness :
    ∃ out, getEvents gcScen clk0 false false (-1) = some out :=
  C10_start_time_assertion.1 gcScen clk0 false false (-1) [nA, nB, nC, nD]
    rfl (by decide) (Or.inl rfl)

/-- C1 counterexample: in the §8 scenario with `limit = 1`, the upcoming
window returned by `getEvents` keeps both upcoming events ([T+2d, T+5d]) —
it is not truncated to the requested limit, and it is not `[T+2d]` as the
claim states (the past window is truncated as claimed). -/
theorem C1_counterexample :
    upWin (getEvents gcScen clk0 false false 1) = some [ctxC, ctxD] ∧
    pastWin (getEvents gcScen clk0 false false 1) = some [ctxB] ∧
    ¬ (([ctxC, ctxD] : List EventCtx).length ≤ 1) := ⟨rfl, rfl, by decide⟩

/-- C1 (amended): a limit `L ≠ -1` truncates only the past window, to at
most `max L 0` entries; the upcoming window is returned in full. -/
theorem C1_limit_truncates_only_past (gc : String → Except String (List Node))
    (clock : Nat → Int) (po uo : Bool) (limit : Int) (out : GEOut)
    (past : List EventCtx) (hl : limit ≠ -1)
    (h : getEvents gc clock po uo limit = some out)
    (hp : out.past = some past) :
    (past.length : Int) ≤ max limit 0 := by
  rcases hgc : gc "/aktionen" with e | events
  · unfold getEvents at h
    rw [hgc] at h
    injection h with h2
    rw [← h2] at hp
    cases hp
  · have herr : out.err = none :=
      getEvents_err_none_of_past gc clock po uo limit out past h hp
    obtain ⟨st2, up2, past2, pEnd, heq, houteq, hpl, hdl, hnodes, hupval,
      hppE, hpEdl, hpastval, hpEuo, hpEnl, hpEl⟩ :=
      getEvents_ok_struct gc clock po uo limit out events hgc h herr
    subst houteq
    simp only [Option.some.injEq] at hp
    subst hp
    have hplen : past2.length = pEnd - st2.pastIdx := by
      rw [hpastval]
      simp
      omega
    by_cases huo : uo = true
    · have := hpEuo huo
      rw [hplen]
      omega
    · have huo2 : uo = false := by simpa using huo
      have := hpEl hl huo2
      rw [hplen]
      omega

/-- C1 witness: the past-window bound evaluated on the scenario run with
`limit = 1`. -/
theorem C1_witness : (([ctxB] : List EventCtx).length : Int) ≤ max 1 0 :=
  C1_limit_truncates_only_past gcScen clk0 false false 1
    ⟨some [ctxC, ctxD], some [ctxB], none, ["b", "a"]⟩ [ctxB]
    (by decide) (by rfl) rfl

/-- C3 counterexample: with `pastOnly` and `upcomingOnly` both set the
upcoming window is empty — not the window `upcomingOnly` alone yields. -/
theorem C3_counterexample :
    upWin (getEvents gcScen clk0 true true (-1)) = some [] ∧
    upWin (getEvents gcScen clk0 false true (-1)) = some [ctxC, ctxD] ∧
    upWin (getEvents gcScen clk0 true true (-1))
      ≠ upWin (getEvents gcScen clk0 false true (-1)) := ⟨rfl, rfl, by decide⟩

/-- C3 (amended): with both flags set, both returned windows are empty
(`upcomingOnly` empties the past window, `pastOnly` empties the upcoming
window), and the scan still stops before any thumbnail fetch, exactly as
with `upcomingOnly` alone, so no per-item child enumeration happens. -/
theorem C3_both_flags_empty (gc : String → Except String (List Node))
    (clock : Nat → Int) (limit : Int) (out : GEOut)
    (h : getEvents gc clock true true limit = some out)
    (herr : out.err = none) :
    out.upcoming = some [] ∧ out.past = some [] ∧ out.fetched = [] := by
  rcases hgc : gc "/aktionen" with e | events
  · unfold getEvents at h
    rw [hgc] at h
    injection h with h2
    rw [← h2] at herr
    cases herr
  · obtain ⟨st2, up2, past2, pEnd, heq, houteq, hpl, hdl, hnodes, hupval,
      hppE, hpEdl, hpastval, hpEuo, hpEnl, hpEl⟩ :=
      getEvents_ok_struct gc clock true true limit out events hgc h herr
    have hfetch := (getEvents_some_facts gc clock true true limit out h).1 rfl
    subst houteq
    refine ⟨?_, ?_, hfetch⟩
    · simp only [Option.some.injEq]
      rw [hupval]
      simp
    · simp only [Option.some.injEq]
      rw [hpastval, hpEuo rfl]
      simp

/-- C3 witness: the empty windows evaluated on the scenario run with both
flags set. -/
theorem C3_witness :
    (⟨some [], some [], none, []⟩ : GEOut).upcoming = some [] ∧
    (⟨some [], some [], none, []⟩ : GEOut).past = some [] ∧
    (⟨some [], some [], none, []⟩ : GEOut).fetched = [] :=
  C3_both_flags_empty gcScen clk0 (-1) ⟨some [], some [], none, []⟩ (by rfl) rfl

/-- C2 (amended): `time.Now()` is re-read at every `Upcoming()` evaluation,
not captured once per query; nevertheless, whenever every clock read during
the partition returns the same instant `t`, the returned windows are the
reference partition against `t`: every upcoming view starts strictly after
`t` and every past view starts at or before `t`. -/
theorem C2_consistent_for_constant_clock (gc : String → Except String (List Node))
    (t : Int) (po uo : Bool) (limit : Int) (out : GEOut) (events : List Node)
    (up past : List EventCtx)
    (hev : gc "/aktionen" = Except.ok events)
    (h : getEvents gc (fun _ => t) po uo limit = some out)
    (hu : out.upcoming = some up) (hp : out.past = some past) :
    (∀ c ∈ up, t < ctxStartD c) ∧ (∀ c ∈ past, ctxStartD c ≤ t) := by
  have herr : out.err = none :=
    getEvents_err_none_of_upcoming gc (fun _ => t) po uo limit out up h hu
  obtain ⟨st2, up2, past2, pEnd, heq, houteq, hpl, hdl, hnodes, hupval,
    hppE, hpEdl, hpastval, hpEuo, hpEnl, hpEl⟩ :=
    getEvents_ok_struct gc (fun _ => t) po uo limit out events hev h herr
  subst houteq
  simp only [Option.some.injEq] at hu hp
  subst hu
  subst hp
  have hclass := evLoop_classify gc t uo limit
    (List.insertionSort nodeGE events) 0 evInit (LoopRes.ok st2) st2 heq rfl
    (List.sorted_insertionSort nodeGE events) (by simp [evInit])
    (by simp [evInit]) (by simp [evInit]) (by simp [evInit]) (by simp [evInit])
  constructor
  · intro c hc
    rw [hupval] at hc
    by_cases hpo : po = true
    · rw [hpo] at hc
      simp at hc
    · have hpo2 : po = false := by simpa using hpo
      rw [hpo2] at hc
      simp only [Bool.false_eq_true, if_false, List.mem_reverse] at hc
      exact hclass.1 c hc
  · intro c hc
    rw [hpastval] at hc
    exact hclass.2 c (List.mem_of_mem_take hc)

/-- C2 counterexample: two records tied at start time `1` with a clock that
crosses `1` between the two classification reads end up split across the
windows — a partition no single evaluation instant can produce. -/
theorem C2_counterexample :
    upWin (getEvents gcTie clkMove false false (-1)) = some [⟨some nTa, none⟩] ∧
    pastWin (getEvents gcTie clkMove false false (-1)) = some [⟨some nTb, none⟩] ∧
    ¬ ∃ t : Int, (∀ c ∈ [(⟨some nTa, none⟩ : EventCtx)], t < ctxStartD c) ∧
      (∀ c ∈ [(⟨some nTb, none⟩ : EventCtx)], ctxStartD c ≤ t) := by
  refine ⟨rfl, rfl, ?_⟩
  rintro ⟨t, h1, h2⟩
  have ha := h1 (⟨some nTa, none⟩ : EventCtx) (by simp)
  have hb := h2 (⟨some nTb, none⟩ : EventCtx) (by simp)
  have hva : ctxStartD (⟨some nTa, none⟩ : EventCtx) = 1 := rfl
  have hvb : ctxStartD (⟨some nTb, none⟩ : EventCtx) = 1 := rfl
  rw [hva] at ha
  rw [hvb] at hb
  omega

/-- C2 witness: the constant-clock consistency evaluated on the scenario
collection at `t = 0`. -/
theorem C2_witness :
    (∀ c ∈ [ctxC, ctxD], (0 : Int) < ctxStartD c) ∧
    (∀ c ∈ [ctxB, ctxA], ctxStartD c ≤ (0 : Int)) :=
  C2_consistent_for_constant_clock gcScen 0 false false (-1)
    ⟨some [ctxC, ctxD], some [ctxB, ctxA], none, ["b", "a"]⟩ [nA, nB, nC, nD]
    [ctxC, ctxD] [ctxB, ctxA] rfl (by rfl) rfl rfl

/-- C6: the windows of a successful partition use each input record at most
once (their node projections form a sub-permutation of the input), their
total length never exceeds the input size, and with no limit and no flags
the two windows together are exactly a permutation of the input records. -/
theorem C6_partition_invariant (gc : String → Except String (List Node))
    (clock : Nat → Int) (po uo : Bool) (limit : Int) (out : GEOut)
    (events : List Node) (up past : List EventCtx)
    (hev : gc "/aktionen" = Except.ok events)
    (h : getEvents gc clock po uo limit = some out)
    (hu : out.upcoming = some up) (hp : out.past = some past) :
    up.length + past.length ≤ events.length ∧
    List.Subperm ((up ++ past).map (fun c => c.node)) (events.map some) ∧
    (limit = -1 → po = false → uo = false →
      up.length + past.length = events.length ∧
      List.Perm ((up ++ past).map (fun c => c.node)) (events.map some)) := by
  have herr : out.err = none :=
    getEvents_err_none_of_upcoming gc clock po uo limit out up h hu
  obtain ⟨st2, up2, past2, pEnd, heq, houteq, hpl, hdl, hnodes, hupval,
    hppE, hpEdl, hpastval, hpEuo, hpEnl, hpEl⟩ :=
    getEvents_ok_struct gc clock po uo limit out events hev h herr
  subst houteq
  simp only [Option.some.injEq] at hu hp
  subst hu
  subst hp
  have hslen : (List.insertionSort nodeGE events).length = events.length :=
    List.length_insertionSort nodeGE events
  have hul : up2.length ≤ st2.pastIdx := by
    rw [hupval]
    split
    · simp
    · simp
  have hplen : past2.length = pEnd - st2.pastIdx := by
    rw [hpastval]
    simp
    omega
  have hupsub : up2.Sublist ((st2.done.take st2.pastIdx).reverse) := by
    rw [hupval]
    split
    · exact List.nil_sublist _
    · exact List.Sublist.refl _
  have hpsub : past2.Sublist (st2.done.drop st2.pastIdx) := by
    rw [hpastval]
    exact List.take_sublist _ _
  have happ : (up2 ++ past2).Sublist
      ((st2.done.take st2.pastIdx).reverse ++ st2.done.drop st2.pastIdx) :=
    List.Sublist.append hupsub hpsub
  have hpermd : ((st2.done.take st2.pastIdx).reverse
      ++ st2.done.drop st2.pastIdx).Perm st2.done := by
    have h1 := (List.reverse_perm (st2.done.take st2.pastIdx)).append_right
      (st2.done.drop st2.pastIdx)
    rw [List.take_append_drop] at h1
    exact h1
  have hdonesub : List.Sublist (st2.done.map (fun c => c.node))
      ((List.insertionSort nodeGE events).map some) := by
    rw [hnodes]
    exact (List.take_sublist _ _).map some
  have hsortperm : List.Perm ((List.insertionSort nodeGE events).map some)
      (events.map some) := (List.perm_insertionSort nodeGE events).map some
  refine ⟨?_, ?_, ?_⟩
  · omega
  · have hs1 : List.Subperm ((up2 ++ past2).map (fun c => c.node))
        (st2.done.map (fun c => c.node)) :=
      List.Subperm.trans (happ.map (fun c => c.node)).subperm
        ((hpermd.map (fun c => c.node)).subperm)
    exact hs1.trans (hdonesub.subperm.trans hsortperm.subperm)
  · intro hlim hpo huo
    have hpEn : pEnd = events.length := hpEnl hlim huo
    have hdln : st2.done.length = events.length := by omega
    have hpastd : past2 = st2.done.drop st2.pastIdx := by
      rw [hpastval]
      apply List.take_of_length_le
      simp
      omega
    have hupd : up2 = (st2.done.take st2.pastIdx).reverse := by
      rw [hupval, hpo]
      simp
    have hperm2 : (up2 ++ past2).Perm st2.done := by
      rw [hupd, hpastd]
      exact hpermd
    have hdoneall : st2.done.map (fun c => c.node)
        = (List.insertionSort nodeGE events).map some := by
      rw [hnodes, hdln, ← hslen, List.take_length]
    constructor
    · have := hperm2.length_eq
      simp at this
      omega
    · have hm := hperm2.map (fun c => c.node)
      rw [hdoneall] at hm
      exact hm.trans hsortperm

/-- C6 witness: the invariant evaluated on the unlimited scenario run. -/
theorem C6_witness :
    ([ctxC, ctxD] : List EventCtx).length + ([ctxB, ctxA] : List EventCtx).length
      ≤ ([nA, nB, nC, nD] : List Node).length ∧
    List.Subperm (([ctxC, ctxD] ++ [ctxB, ctxA]).map (fun c => c.node))
      (([nA, nB, nC, nD] : List Node).map some) ∧
    ((-1 : Int) = -1 → false = false → false = false →
      ([ctxC, ctxD] : List EventCtx).length + ([ctxB, ctxA] : List EventCtx).length
        = ([nA, nB, nC, nD] : List Node).length ∧
      List.Perm (([ctxC, ctxD] ++ [ctxB, ctxA]).map (fun c => c.node))
        (([nA, nB, nC, nD] : List Node).map some)) :=
  C6_partition_invariant gcScen clk0 false false (-1)
    ⟨some [ctxC, ctxD], some [ctxB, ctxA], none, ["b", "a"]⟩ [nA, nB, nC, nD]
    [ctxC, ctxD] [ctxB, ctxA] rfl (by rfl) rfl rfl

/-- C7: the upcoming window is sorted ascending by start time and the past
window descending (ties, when present, are adjacent in unspecified order);
on the §8 scenario the windows are exactly `[T+2d, T+5d]` and
`[T-1d, T-3d]`. -/
theorem C7_window_ordering (gc : String → Except String (List Node))
    (clock : Nat → Int) (po uo : Bool) (limit : Int) (out : GEOut)
    (events : List Node) (up past : List EventCtx)
    (hev : gc "/aktionen" = Except.ok events)
    (h : getEvents gc clock po uo limit = some out)
    (hu : out.upcoming = some up) (hp : out.past = some past) :
    List.Sorted (fun a b : Int => a ≤ b) (up.map ctxStartD) ∧
    List.Sorted (fun a b : Int => b ≤ a) (past.map ctxStartD) ∧
    upWin (getEvents gcScen clk0 false false (-1)) = some [ctxC, ctxD] ∧
    pastWin (getEvents gcScen clk0 false false (-1)) = some [ctxB, ctxA] := by
  have herr : out.err = none :=
    getEvents_err_none_of_upcoming gc clock po uo limit out up h hu
  obtain ⟨st2, up2, past2, pEnd, heq, houteq, hpl, hdl, hnodes, hupval,
    hppE, hpEdl, hpastval, hpEuo, hpEnl, hpEl⟩ :=
    getEvents_ok_struct gc clock po uo limit out events hev h herr
  subst houteq
  simp only [Option.some.injEq] at hu hp
  subst hu
  subst hp
  have hmap : st2.done.map ctxStartD
      = ((List.insertionSort nodeGE events).take st2.done.length).map startD := by
    have h2 := congrArg
      (List.map (fun o : Option Node => (o.bind startTime?).getD 0)) hnodes
    simp only [List.map_map] at h2
    convert h2 using 2
  have hsd : List.Pairwise (fun a b : Int => b ≤ a) (st2.done.map ctxStartD) := by
    rw [hmap]
    have hs := List.sorted_insertionSort nodeGE events
    have hall : List.Pairwise (fun a b : Int => b ≤ a)
        ((List.insertionSort nodeGE events).map startD) := by
      rw [List.pairwise_map]
      exact hs
    exact hall.sublist ((List.take_sublist _ _).map startD)
  refine ⟨?_, ?_, rfl, rfl⟩
  · rw [hupval]
    by_cases hpo : po = true
    · rw [hpo]
      simp
    · have hpo2 : po = false := by simpa using hpo
      rw [hpo2]
      simp only [Bool.false_eq_true, if_false]
      unfold List.Sorted
      rw [List.pairwise_map, List.pairwise_reverse]
      have h3 : List.Pairwise (fun a b : EventCtx => ctxStartD b ≤ ctxStartD a)
          (st2.done.take st2.pastIdx) := by
        have h4 := hsd.sublist ((List.take_sublist st2.pastIdx st2.done).map ctxStartD)
        rw [List.pairwise_map] at h4
        exact h4
      exact h3.imp (fun hab => hab)
  · rw [hpastval]
    unfold List.Sorted
    rw [List.pairwise_map]
    have h4 := hsd.sublist
      (((List.take_sublist (pEnd - st2.pastIdx)
          (List.drop st2.pastIdx st2.done)).trans
        (List.drop_sublist st2.pastIdx st2.done)).map ctxStartD)
    rw [List.pairwise_map] at h4
    exact h4

/-- C7 witness: the ordering evaluated on the unlimited scenario run. -/
theorem C7_witness :
    List.Sorted (fun a b : Int => a ≤ b) (([ctxC, ctxD] : List EventCtx).map ctxStartD) ∧
    List.Sorted (fun a b : Int => b ≤ a) (([ctxB, ctxA] : List EventCtx).map ctxStartD) ∧
    upWin (getEvents gcScen clk0 false false (-1)) = some [ctxC, ctxD] ∧
    pastWin (getEvents gcScen clk0 false false (-1)) = some [ctxB, ctxA] :=
  C7_window_ordering gcScen clk0 false false (-1)
    ⟨some [ctxC, ctxD], some [ctxB, ctxA], none, ["b", "a"]⟩ [nA, nB, nC, nD]
    [ctxC, ctxD] [ctxB, ctxA] rfl (by rfl) rfl rfl

/-- C8: the successful list view builds its cache descriptor with descend
depth 2 rooted at the queried node path and expiry equal to the first
upcoming item's start time when one exists (unset otherwise); the successful
single-item view builds descend depth 1 rooted at the item's path with no
expiry. -/
theorem C8_cache_descriptors :
    (∀ (c : Collab) (embed : Option String) (req : Request) (q : QueryV)
        (g : GEOut) (up : List EventCtx) (out : CtxOut),
      c.getRequest = Except.ok req →
      effQuery c req embed = Except.ok q →
      getEvents c.getChildren c.clock (flagOf q "past") (flagOf q "upcoming")
        (parseLimit (queryGet q "limit")) = some g →
      g.upcoming = some up →
      getEventsContext c embed = some out →
      out.err = none →
      out.mods = some ⟨[⟨req.nodePath, 2⟩], expireOf up⟩) ∧
    (∀ (c : Collab) (req : Request),
      c.getRequest = Except.ok req →
      (getEventContext c).err = none →
      (getEventContext c).mods = some ⟨[⟨req.nodePath, 1⟩], none⟩) := by
  constructor
  · intro c embed req q g up out hreq hq hg hup hout herr
    unfold getEventsContext at hout
    split at hout
    · rename_i e hreq2
      rw [hreq2] at hreq
      cases hreq
    · rename_i req2 hreq2
      rw [hreq2] at hreq
      injection hreq with hreqeq
      subst hreqeq
      split at hout
      · rename_i e hq2
        rw [hq2] at hq
        cases hq
      · rename_i q2 hq2
        rw [hq2] at hq
        injection hq with hqeq
        subst hqeq
        split at hout
        · rename_i hg2
          rw [hg2] at hg
          cases hg
        · rename_i g2 hg2
          rw [hg2] at hg
          injection hg with hgeq
          subst hgeq
          split at hout
          · rename_i e hgerr
            injection hout with h2
            rw [← h2] at herr
            cases herr
          · rename_i hgerr
            split at hout
            · rename_i e hrend
              injection hout with h2
              rw [← h2] at herr
              cases herr
            · rename_i rendered hrend
              split at hout
              · rename_i hup2
                rw [hup2] at hup
                cases hup
              · rename_i up2 hup2
                rw [hup2] at hup
                injection hup with hupeq
                subst hupeq
                split at hout
                · injection hout with h2
                  rw [← h2]
                  simp [expireOf]
                · rename_i c0 rest
                  split at hout
                  · cases hout
                  · rename_i t hnd
                    injection hout with h2
                    rw [← h2]
                    simp [expireOf, hnd]
  · intro c req hreq herr
    unfold getEventContext at herr ⊢
    split at herr
    · rename_i e hreq2
      rw [hreq2] at hreq
      cases hreq
    · rename_i req2 hreq2
      rw [hreq2] at hreq
      injection hreq with hreqeq
      subst hreqeq
      split at herr
      · cases herr
      · split at herr
        · cases herr
        · rfl

/-- C8 witness: the two descriptors evaluated on a concrete collaborator
bundle over the scenario collection. -/
theorem C8_witness :
    (getEventsContext collabW none).map (fun o => o.mods)
      = some (some ⟨[⟨"/veranstaltungen", 2⟩], expireOf [ctxC, ctxD]⟩) ∧
    (getEventContext collabW).mods = some ⟨[⟨"/veranstaltungen", 1⟩], none⟩ := by
  constructor
  · have h2 := C8_cache_descriptors.1 collabW none reqW []
      ⟨some [ctxC, ctxD], some [ctxB, ctxA], none, ["b", "a"]⟩ [ctxC, ctxD]
      ⟨some [("EventList", "rendered")],
        some ⟨[⟨"/veranstaltungen", 2⟩], some 2⟩, none⟩
      rfl rfl (by rfl) rfl (by rfl) rfl
    rw [show getEventsContext collabW none
        = some ⟨some [("EventList", "rendered")],
            some ⟨[⟨"/veranstaltungen", 2⟩], some 2⟩, none⟩ from by rfl]
    exact congrArg some h2
  · exact C8_cache_descriptors.2 collabW reqW rfl rfl
